import Mathlib

/-!
Shallow embedding of `scripts/generate-marketplace.js`, the marketplace
generator of the `skills` repository, together with theorems checking the
repository specification's claims about it.

Strings are modelled as Lean `String` (a wrapper around `List Char`); the
JavaScript string operations used by the script (`trim`, `split`, `indexOf`,
`slice`, the frontmatter regex, `||`-defaulting, truthiness tests) are given
explicit executable definitions below, faithful to their ECMAScript semantics
on the ASCII data the script manipulates.  File-system effects are modelled by
an explicit `FS` value describing what the script would observe, and
`process.exit(1)` by returning `Except.error` (the run terminates with a
non-zero outcome before any later write happens).
-/

namespace GenMarketplace

/-! ### JavaScript string primitives -/

/-- Whitespace characters removed by JavaScript `String.prototype.trim`
(restricted to the characters that can occur in this script's inputs). -/
def isJsWs (c : Char) : Bool :=
  c = ' ' || c = '\t' || c = '\n' || c = '\r' || c = '\x0b' || c = '\x0c'

/-- Remove leading and trailing whitespace from a character list. -/
def trimChars (cs : List Char) : List Char :=
  ((cs.dropWhile isJsWs).reverse.dropWhile isJsWs).reverse

/-- JavaScript `s.trim()`. -/
def jsTrim (s : String) : String := String.mk (trimChars s.data)

/-- Split a character list at every occurrence of the separator character;
the separators are dropped and empty pieces are kept, as in JavaScript
`String.prototype.split` with a one-character separator. -/
def splitChar (sep : Char) : List Char → List (List Char)
  | [] => [[]]
  | c :: cs =>
    if c = sep then [] :: splitChar sep cs
    else
      match splitChar sep cs with
      | [] => [[c]]
      | r :: rs => (c :: r) :: rs

/-- JavaScript `s.split(sep)` for a one-character separator. -/
def jsSplit (sep : Char) (s : String) : List String :=
  (splitChar sep s.data).map String.mk

/-! ### The frontmatter parser (`parseFrontmatter`, lines 76–97)

The script matches ``^---\n([\s\S]*?)\n---`` against the document.  The match
succeeds iff the document starts with `"---\n"` and the remainder contains
`"\n---"`; the lazy capture group is then the text strictly between the
initial `"---\n"` and the *first* later occurrence of `"\n---"`. -/

/-- The characters before the first occurrence of `"\n---"`, or `none` when
that marker does not occur.  This is the lazy capture of the regex once the
leading `"---\n"` has been consumed. -/
def findBeforeMarker : List Char → Option (List Char)
  | [] => none
  | c :: cs =>
    if c = '\n' ∧ cs.take 3 = ['-', '-', '-'] then some []
    else (findBeforeMarker cs).map (c :: ·)

/-- The capture group of ``^---\n([\s\S]*?)\n---``, or `none` when the regex
does not match at the start of the document. -/
def fmRegion (cs : List Char) : Option (List Char) :=
  if cs.take 4 = ['-', '-', '-', '\n'] then findBeforeMarker (cs.drop 4)
  else none

/-- One iteration of the parser's line loop: `colonIndex = line.indexOf(':')`;
when `colonIndex > 0` record the pair
`(line.slice(0, colonIndex).trim(), line.slice(colonIndex + 1).trim())`,
otherwise leave the accumulated mapping unchanged.  The mapping is an
association list read through `fmGet` (last write wins, as for a JS object). -/
def parseFmLine (fm : List (String × String)) (line : String) :
    List (String × String) :=
  let cs := line.data
  let before := cs.takeWhile (· ≠ ':')
  if 0 < before.length ∧ before.length < cs.length then
    fm ++ [(String.mk (trimChars before),
            String.mk (trimChars (cs.drop (before.length + 1))))]
  else fm

/-- The parser's loop over the lines of the captured region. -/
def parseFmLines (lines : List String) : List (String × String) :=
  lines.foldl parseFmLine []

/-- The function `parseFrontmatter(content)`: empty mapping when the regex does not match,
otherwise the mapping collected from the lines of the capture group. -/
def parseFrontmatter (content : String) : List (String × String) :=
  match fmRegion content.data with
  | none => []
  | some region => parseFmLines ((splitChar '\n' region).map String.mk)

/-- Property read `frontmatter[key]` on the object built by repeated
assignments: the value of the last assignment to `key`, if any. -/
def fmGet (fm : List (String × String)) (key : String) : Option String :=
  (fm.reverse.find? (fun p => p.1 == key)).map (·.2)

/-! ### JavaScript truthiness and `||`-defaulting

A field that may be absent (JS `null`/`undefined`/missing property) is an
`Option String`; JavaScript treats both an absent value and the empty string
as falsy. -/

/-- Truthiness of a possibly-absent string value. -/
def truthyO : Option String → Bool
  | some s => s ≠ ""
  | none => false

/-- JavaScript `a || d` where `a` is a possibly-absent string and `d` a
string: `a` when truthy, else `d`. -/
def jsOr (a : Option String) (d : String) : String :=
  match a with
  | some s => if s = "" then d else s
  | none => d

/-- JavaScript `if (a) use a` on a possibly-absent string: keep the value only
when truthy. -/
def jsOpt (a : Option String) : Option String :=
  if truthyO a then a else none

/-- JavaScript `a || b` for two possibly-absent strings, kept only when the
result is truthy (models `if (a || b) { x = a || b }`). -/
def jsFirstTruthy (a b : Option String) : Option String :=
  if truthyO a then a else if truthyO b then b else none

/-! ### Project defaults (`getDefaults`, lines 155–188) -/

/-- The `author` field of `package.json`: either a plain string or an object
with optional `name` and `email` members. -/
inductive JsAuthor where
  | str : String → JsAuthor
  | obj : Option String → Option String → JsAuthor
  deriving Repr, DecidableEq

/-- The fields of `package.json` the script reads; each may be absent. -/
structure PackageJson where
  name : Option String
  author : Option JsAuthor
  description : Option String
  deriving Repr, DecidableEq

/-- The resolved catalog-level defaults. -/
structure Defaults where
  name : String
  owner : String
  description : String
  email : Option String
  deriving Repr, DecidableEq

/-- Character class test for the regex `[^a-z0-9-]` with the `gi` flags: with
case-insensitive matching the class fails to match (hence the character is
kept) exactly on ASCII letters of either case, digits, and the hyphen. -/
def isTokenCI (c : Char) : Bool :=
  (97 ≤ c.toNat && c.toNat ≤ 122) || (65 ≤ c.toNat && c.toNat ≤ 90) ||
    (48 ≤ c.toNat && c.toNat ≤ 57) || c.toNat = 45

/-- ASCII lower-casing of one character, the effect of JavaScript
`toLowerCase()` on the ASCII-only strings it is applied to here. -/
def asciiLower (c : Char) : Char :=
  if 65 ≤ c.toNat && c.toNat ≤ 90 then Char.ofNat (c.toNat + 32) else c

/-- Line 167: `pkg.name.replace(/[^a-z0-9-]/gi, '-').toLowerCase()` — replace
every character the case-insensitive class does not keep by `'-'`, then
lower-case the result. -/
def sanitizeName (s : String) : String :=
  String.mk ((s.data.map fun c => if isTokenCI c then c else '-').map asciiLower)

/-- The fixed fallback constants (lines 156–160). -/
def fallbackDefaults : Defaults :=
  { name := "skills-marketplace"
    owner := "Skills Team"
    description := "A collection of Claude Code skills"
    email := none }

/-- The function `getDefaults` (lines 155–188) applied to the parsed
`package.json` (`none` when the file is absent or unparseable): each truthy
field overrides the corresponding fallback constant; the `author` field sets
the owner when it is a non-empty string, or an object whose `name` member is
truthy, in which case a truthy `email` member also sets the email. -/
def getDefaults (pkg : Option PackageJson) : Defaults :=
  match pkg with
  | none => fallbackDefaults
  | some p =>
    let d1 :=
      match p.name with
      | some n => if n = "" then fallbackDefaults else { fallbackDefaults with name := sanitizeName n }
      | none => fallbackDefaults
    let d2 :=
      match p.author with
      | none => d1
      | some (.str s) => if s = "" then d1 else { d1 with owner := s }
      | some (.obj n e) =>
        match n with
        | none => d1
        | some nm =>
          if nm = "" then d1
          else
            { d1 with
              owner := nm
              email := match e with
                | some em => if em = "" then d1.email else some em
                | none => d1.email }
    match p.description with
    | some ds => if ds = "" then d2 else { d2 with description := ds }
    | none => d2

/-! ### Package descriptors (`scanSkills`, lines 100–152)

A `Skill` is the object pushed for each subdirectory that has a `SKILL.md`:
required fields `name`, `source`, `description`, `strict`, plus the optional
fields added only when the corresponding frontmatter value is truthy. -/

structure Skill where
  name : String
  source : String
  description : String
  strict : Bool
  version : Option String
  author : Option String
  keywords : Option (List String)
  category : Option String
  deriving Repr, DecidableEq

/-- Build the descriptor for one subdirectory (lines 123–145): `entryName` is
the subdirectory's base name and `content` the text of its `SKILL.md`. -/
def buildSkill (skillsDir entryName content : String) : Skill :=
  let fm := parseFrontmatter content
  { name := jsOr (fmGet fm "name") entryName
    source := "./" ++ skillsDir ++ "/" ++ entryName
    description := jsOr (fmGet fm "description") ("Skill: " ++ entryName)
    strict := false
    version := jsOpt (fmGet fm "version")
    author := jsOpt (fmGet fm "author")
    keywords := (jsOpt (fmGet fm "keywords")).map
      (fun v => (jsSplit ',' v).map jsTrim)
    category := jsOpt (fmGet fm "category") }

/-- One entry of the scanned root directory as `readdirSync` reports it:
its name, whether it is a directory, and the content of its `SKILL.md` when
that file exists. -/
structure DirEntry where
  name : String
  isDir : Bool
  skillMd : Option String
  deriving Repr, DecidableEq

/-- What the script can observe of the file system: whether the resolved
skills directory exists, its entries in directory-listing order, and the
parsed `package.json` at the invocation root (`none` when the file is absent
or fails to parse — the `catch` swallows parse errors). -/
structure FS where
  rootExists : Bool
  entries : List DirEntry
  pkg : Option PackageJson

/-- The function `scanSkills` (lines 100–152): fatal when the directory does
not exist (`process.exit(1)`, modelled as `Except.error`); otherwise build a
descriptor for every directory entry that has a `SKILL.md`, skipping plain
files and subdirectories without one. -/
def scanSkills (skillsDir : String) (fs : FS) : Except String (List Skill) :=
  if fs.rootExists then
    .ok (fs.entries.filterMap fun e =>
      if e.isDir then (e.skillMd.map fun content => buildSkill skillsDir e.name content)
      else none)
  else .error "Skills directory not found"

/-! ### Manifest assembly (`generateMarketplace`, lines 191–218) and the run -/

/-- The caller-supplied options as `parseArgs` returns them: the four
overridable fields are absent (`null`) unless given on the command line. -/
structure Options where
  name : Option String
  owner : Option String
  email : Option String
  description : Option String
  output : String
  skillsDir : String
  deriving Repr, DecidableEq

/-- The `owner` object of the manifest. -/
structure Owner where
  name : String
  email : Option String
  deriving Repr, DecidableEq

/-- The `metadata` object of the manifest. -/
structure MarketplaceMetadata where
  description : String
  pluginRoot : String
  deriving Repr, DecidableEq

/-- The manifest object written to `marketplace.json`. -/
structure Marketplace where
  name : String
  owner : Owner
  metadata : MarketplaceMetadata
  plugins : List Skill
  deriving Repr, DecidableEq

/-- Lines 200–215: the manifest literal, with `options.x || defaults.x`
defaulting for each overridable field and the `owner.email` member added only
when `options.email || defaults.email` is truthy. -/
def assembleMarketplace (options : Options) (defaults : Defaults)
    (skills : List Skill) : Marketplace :=
  { name := jsOr options.name defaults.name
    owner :=
      { name := jsOr options.owner defaults.owner
        email := jsFirstTruthy options.email defaults.email }
    metadata :=
      { description := jsOr options.description defaults.description
        pluginRoot := "./" ++ options.skillsDir }
    plugins := skills }

/-- The function `generateMarketplace` (lines 191–218): resolve defaults,
scan, abort fatally when the scan failed or produced no descriptors, else
assemble the manifest. -/
def generateMarketplace (options : Options) (fs : FS) :
    Except String Marketplace :=
  let defaults := getDefaults fs.pkg
  match scanSkills options.skillsDir fs with
  | .error e => .error e
  | .ok skills =>
    if skills.length = 0 then .error "No skills found"
    else .ok (assembleMarketplace options defaults skills)

/-- The function `main` (lines 236–242) up to the write: on success the pair
(manifest, output path) is what `writeMarketplace` persists; `Except.error`
models `process.exit(1)`, which terminates the process before
`writeMarketplace` is ever reached, so nothing is written at the output
path. -/
def run (options : Options) (fs : FS) :
    Except String (Marketplace × String) :=
  (generateMarketplace options fs).map (fun m => (m, options.output))

/-! ### Specification-side definitions

These restate contested parts of the spec in the spec's own words, to be
compared with the definitions above that were transcribed from the source. -/

/-- The key/value pair a single header line contributes, stated per line:
a line contributes exactly when its first `':'` occurs at a position greater
than zero, and then the key is the trimmed text before that `':'` and the
value the trimmed text after it. -/
def lineKV (line : String) : Option (String × String) :=
  let cs := line.data
  let before := cs.takeWhile (· ≠ ':')
  if 0 < before.length ∧ before.length < cs.length then
    some (String.mk (trimChars before),
          String.mk (trimChars (cs.drop (before.length + 1))))
  else none

/-- Character class `[a-z0-9-]` (case-sensitive, as the spec sentence has
it). -/
def isTokenLower (c : Char) : Bool :=
  (97 ≤ c.toNat && c.toNat ≤ 122) || (48 ≤ c.toNat && c.toNat ≤ 57) ||
    c.toNat = 45

/-- The sanitization rule exactly as the claim words it, read left to right:
first replace every character outside `[a-z0-9-]` with `'-'`, then
lower-case. -/
def sanitizeClaimed (s : String) : String :=
  String.mk ((s.data.map fun c => if isTokenLower c then c else '-').map
    asciiLower)

/-- The sanitization rule with the two steps in the other order: lower-case
the name, then replace every character outside `[a-z0-9-]` with `'-'`. -/
def sanitizeLowerFirst (s : String) : String :=
  String.mk ((s.data.map asciiLower).map fun c =>
    if isTokenLower c then c else '-')

/-! ### Helper lemmas -/

/-- One parser-loop step appends exactly the pair `lineKV` assigns to the
line. -/
theorem parseFmLine_eq (fm : List (String × String)) (line : String) :
    parseFmLine fm line = fm ++ (lineKV line).toList := by
  simp only [parseFmLine, lineKV]
  split
  · rfl
  · simp

/-- The parser loop collects exactly the per-line pairs, in order. -/
theorem foldl_parseFmLine (lines : List String)
    (acc : List (String × String)) :
    lines.foldl parseFmLine acc = acc ++ lines.filterMap lineKV := by
  induction lines generalizing acc with
  | nil => simp [List.foldl]
  | cons l ls ih =>
    simp only [List.foldl_cons, List.filterMap_cons]
    rw [ih, parseFmLine_eq]
    cases lineKV l <;> simp

/-- The parser loop, from the empty accumulator. -/
theorem parseFmLines_eq_filterMap (lines : List String) :
    parseFmLines lines = lines.filterMap lineKV := by
  simpa using foldl_parseFmLine lines []

/-- Reading a key after an assignment to it that no later entry shadows
returns the assigned value. -/
theorem fmGet_last (a b : List (String × String)) (k v : String)
    (hb : ∀ p ∈ b, p.1 ≠ k) :
    fmGet (a ++ (k, v) :: b) k = some v := by
  unfold fmGet
  rw [List.reverse_append, List.reverse_cons, List.append_assoc,
    List.find?_append]
  have hnone : b.reverse.find? (fun p => p.1 == k) = none := by
    rw [List.find?_eq_none]
    intro p hp
    simpa using hb p (List.mem_reverse.mp hp)
  rw [hnone]
  simp

/-- Auxiliary arithmetic fact: lower-casing an ASCII uppercase code point by
adding 32 stays within the valid character range. -/
theorem toNat_ofNat_add32 (n : Nat) (h1 : 65 ≤ n) (h2 : n ≤ 90) :
    (Char.ofNat (n + 32)).toNat = n + 32 := by
  interval_cases n <;> decide

/-- Per character, replacing with the case-insensitive class and then
lower-casing agrees with lower-casing first and then replacing with the
case-sensitive class. -/
theorem asciiLower_comm (c : Char) :
    asciiLower (if isTokenCI c then c else '-') =
      if isTokenLower (asciiLower c) then asciiLower c else '-' := by
  by_cases hU : 65 ≤ c.toNat ∧ c.toNat ≤ 90
  · have hCI : isTokenCI c = true := by
      simp only [isTokenCI, Bool.or_eq_true, Bool.and_eq_true, decide_eq_true_eq]
      omega
    have hLow : asciiLower c = Char.ofNat (c.toNat + 32) := by
      simp only [asciiLower, Bool.and_eq_true, decide_eq_true_eq]
      rw [if_pos]; omega
    have hTn : (Char.ofNat (c.toNat + 32)).toNat = c.toNat + 32 :=
      toNat_ofNat_add32 c.toNat hU.1 hU.2
    have hTL : isTokenLower (asciiLower c) = true := by
      simp only [hLow, isTokenLower, Bool.or_eq_true, Bool.and_eq_true,
        decide_eq_true_eq, hTn]
      omega
    rw [hCI, if_pos rfl, hTL, if_pos rfl]
  · have hid : asciiLower c = c := by
      simp only [asciiLower, Bool.and_eq_true, decide_eq_true_eq]
      rw [if_neg]; omega
    rw [hid]
    by_cases hT : isTokenCI c = true
    · have hTL : isTokenLower c = true := by
        simp only [isTokenCI, Bool.or_eq_true, Bool.and_eq_true,
          decide_eq_true_eq] at hT
        simp only [isTokenLower, Bool.or_eq_true, Bool.and_eq_true,
          decide_eq_true_eq]
        omega
      rw [hT, if_pos rfl, hTL, if_pos rfl, hid]
    · have hTL : isTokenLower c = false := by
        simp only [isTokenCI, Bool.or_eq_true, Bool.and_eq_true,
          decide_eq_true_eq] at hT
        rw [Bool.eq_false_iff]
        intro h
        simp only [isTokenLower, Bool.or_eq_true, Bool.and_eq_true,
          decide_eq_true_eq] at h
        omega
      rw [if_neg (by simp [hT]), hTL]
      simp [asciiLower]

/-- The script's sanitization (case-insensitive replace, then lower-case)
computes the same string as lower-casing first and then replacing with the
case-sensitive class. -/
theorem sanitizeName_eq_lowerFirst (s : String) :
    sanitizeName s = sanitizeLowerFirst s := by
  unfold sanitizeName sanitizeLowerFirst
  rw [List.map_map, List.map_map]
  congr 1
  apply List.map_congr_left
  intro c _
  exact asciiLower_comm c

/-- The `name` field of the resolved defaults, as a function of the project
descriptor's `name` field alone. -/
theorem getDefaults_name (p : PackageJson) :
    (getDefaults (some p)).name =
      (match p.name with
       | some n => if n = "" then "skills-marketplace" else sanitizeName n
       | none => "skills-marketplace") := by
  obtain ⟨pn, pa, pd⟩ := p
  rcases pn with _ | n <;> rcases pd with _ | d <;>
    rcases pa with _ | s | ⟨no, eo⟩ <;> (try rcases no with _ | nm) <;>
    (try rcases eo with _ | em) <;>
    simp [getDefaults, fallbackDefaults] <;> split_ifs <;> simp_all

/-- The `owner` field of the resolved defaults, as a function of the project
descriptor's `author` field alone. -/
theorem getDefaults_owner (p : PackageJson) :
    (getDefaults (some p)).owner =
      (match p.author with
       | some (.str s) => if s = "" then "Skills Team" else s
       | some (.obj (some nm) _) => if nm = "" then "Skills Team" else nm
       | _ => "Skills Team") := by
  obtain ⟨pn, pa, pd⟩ := p
  rcases pn with _ | n <;> rcases pd with _ | d <;>
    rcases pa with _ | s | ⟨no, eo⟩ <;> (try rcases no with _ | nm) <;>
    (try rcases eo with _ | em) <;>
    simp [getDefaults, fallbackDefaults] <;> split_ifs <;> simp_all

/-- The `email` field of the resolved defaults, as a function of the project
descriptor's `author` field alone. -/
theorem getDefaults_email (p : PackageJson) :
    (getDefaults (some p)).email =
      (match p.author with
       | some (.obj (some nm) (some em)) =>
         if nm = "" ∨ em = "" then none else some em
       | _ => none) := by
  obtain ⟨pn, pa, pd⟩ := p
  rcases pn with _ | n <;> rcases pd with _ | d <;>
    rcases pa with _ | s | ⟨no, eo⟩ <;> (try rcases no with _ | nm) <;>
    (try rcases eo with _ | em) <;>
    simp [getDefaults, fallbackDefaults] <;> split_ifs <;> simp_all

/-- The `description` field of the resolved defaults, as a function of the
project descriptor's `description` field alone. -/
theorem getDefaults_description (p : PackageJson) :
    (getDefaults (some p)).description =
      (match p.description with
       | some d => if d = "" then "A collection of Claude Code skills" else d
       | none => "A collection of Claude Code skills") := by
  obtain ⟨pn, pa, pd⟩ := p
  rcases pn with _ | n <;> rcases pd with _ | d <;>
    rcases pa with _ | s | ⟨no, eo⟩ <;> (try rcases no with _ | nm) <;>
    (try rcases eo with _ | em) <;>
    simp [getDefaults, fallbackDefaults] <;> split_ifs <;> simp_all

/-- Counting: the scan keeps exactly the directory entries that have a
`SKILL.md`. -/
theorem length_filterMap_skills (skillsDir : String) (l : List DirEntry) :
    (l.filterMap fun e =>
      if e.isDir then e.skillMd.map fun c => buildSkill skillsDir e.name c
      else none).length =
    (l.filter fun e => e.isDir && e.skillMd.isSome).length := by
  induction l with
  | nil => rfl
  | cons a l ih =>
    simp only [List.filterMap_cons, List.filter_cons]
    by_cases hd : a.isDir = true
    · cases hm : a.skillMd with
      | none => simp [hd, hm, ih]
      | some c => simp [hd, hm, ih]
    · simp [hd, ih]

/-! ### The claims -/

/-- C1, counterexample: with frontmatter `name: foo` and no `description`
in subdirectory `bar`, the identifier is `"foo"` but the synthesized summary
is `"Skill: bar"` — built from the subdirectory name, not from the
identifier as the claim states. -/
theorem summary_fallback_cex :
    (buildSkill "skills" "bar" "---\nname: foo\n---").name = "foo" ∧
    (buildSkill "skills" "bar" "---\nname: foo\n---").description =
      "Skill: bar" ∧
    (buildSkill "skills" "bar" "---\nname: foo\n---").description ≠
      "Skill: " ++ (buildSkill "skills" "bar" "---\nname: foo\n---").name := by
  decide

/-- C1, amended: the descriptor's summary is the metadata `description` when
that is present and non-empty, and otherwise is `"Skill: <dir>"` where
`<dir>` is the subdirectory's base name (not the identifier). -/
theorem summary_fallback_amended (skillsDir entryName content d : String) :
    (fmGet (parseFrontmatter content) "description" = some d → d ≠ "" →
      (buildSkill skillsDir entryName content).description = d) ∧
    (fmGet (parseFrontmatter content) "description" = none ∨
        fmGet (parseFrontmatter content) "description" = some "" →
      (buildSkill skillsDir entryName content).description =
        "Skill: " ++ entryName) := by
  constructor
  · intro h hd
    simp [buildSkill, h, jsOr, hd]
  · rintro (h | h) <;> simp [buildSkill, h, jsOr]

/-- C1, witness: both branches of the amended claim at concrete documents. -/
theorem summary_fallback_amended_instance :
    (buildSkill "skills" "bar" "---\ndescription: hi\n---").description =
      "hi" ∧
    (buildSkill "skills" "bar" "---\nname: foo\n---").description =
      "Skill: bar" := by
  refine ⟨(summary_fallback_amended "skills" "bar" "---\ndescription: hi\n---"
    "hi").1 (by decide) (by decide), ?_⟩
  exact ((summary_fallback_amended "skills" "bar" "---\nname: foo\n---"
    "x").2 (Or.inl (by decide))).trans (by decide)

/-- C2, counterexample: the resolved defaults name for project name
`"My App!"` is `"my-app-"`, while the claim's rule — replace every character
outside the case-sensitive class `[a-z0-9-]` with `'-'`, then lower-case —
yields `"-y--pp-"`; and a supplied empty name resolves to the fallback
constant `"skills-marketplace"` rather than to the rule's `""`. -/
theorem sanitize_name_cex :
    (getDefaults (some ⟨some "My App!", none, none⟩)).name = "my-app-" ∧
    sanitizeClaimed "My App!" = "-y--pp-" ∧
    (getDefaults (some ⟨some "My App!", none, none⟩)).name ≠
      sanitizeClaimed "My App!" ∧
    (getDefaults (some ⟨some "", none, none⟩)).name = "skills-marketplace" ∧
    sanitizeClaimed "" = "" ∧
    sanitizeLowerFirst "" = "" := by
  decide

/-- C2, amended: when the project descriptor supplies a non-empty `name`,
the resolved defaults name is obtained by lower-casing the name and then
replacing every character outside `[a-z0-9-]` with `'-'` (equivalently, the
source's case-insensitive replacement followed by lower-casing). -/
theorem sanitize_name_amended (n : String) (hn : n ≠ "")
    (pa : Option JsAuthor) (pd : Option String) :
    (getDefaults (some ⟨some n, pa, pd⟩)).name = sanitizeLowerFirst n := by
  rw [← sanitizeName_eq_lowerFirst, getDefaults_name]
  simp [hn]

/-- C2, witness: the amended rule at the spec's example `"My App!"`, whose
sanitized form evaluates to `"my-app-"`. -/
theorem sanitize_name_amended_instance :
    (getDefaults (some ⟨some "My App!", none, none⟩)).name =
      sanitizeLowerFirst "My App!" ∧
    sanitizeLowerFirst "My App!" = "my-app-" :=
  ⟨sanitize_name_amended "My App!" (by decide) none none, by decide⟩

/-- C3, counterexample: the explicitly supplied override `--name ""` is not
used; the manifest name falls back to the default. -/
theorem override_precedence_cex :
    (generateMarketplace ⟨some "", none, none, none, "o", "skills"⟩
        ⟨true, [⟨"d", true, some ""⟩], none⟩).map Marketplace.name =
      .ok "skills-marketplace" ∧
    ("skills-marketplace" : String) ≠ "" := by
  exact ⟨rfl, by decide⟩

/-- C3, amended: for each overridable manifest field, a non-empty explicit
override is used; an absent override falls back to the Default Resolver
value; and the Default Resolver yields the fixed fallback constant whenever
the project descriptor is absent or lacks the corresponding field. -/
theorem override_precedence_amended (options : Options)
    (defaults : Defaults) (skills : List Skill) (s : String) (hs : s ≠ "")
    (p : PackageJson) :
    ((assembleMarketplace { options with name := some s } defaults
        skills).name = s ∧
     (assembleMarketplace { options with owner := some s } defaults
        skills).owner.name = s ∧
     (assembleMarketplace { options with email := some s } defaults
        skills).owner.email = some s ∧
     (assembleMarketplace { options with description := some s } defaults
        skills).metadata.description = s) ∧
    ((assembleMarketplace { options with name := none } defaults
        skills).name = defaults.name ∧
     (assembleMarketplace { options with owner := none } defaults
        skills).owner.name = defaults.owner ∧
     ((∀ em, defaults.email = some em → em ≠ "") →
       (assembleMarketplace { options with email := none } defaults
          skills).owner.email = defaults.email) ∧
     (assembleMarketplace { options with description := none } defaults
        skills).metadata.description = defaults.description) ∧
    (getDefaults none = fallbackDefaults ∧
     (p.name = none →
       (getDefaults (some p)).name = "skills-marketplace") ∧
     (p.author = none →
       (getDefaults (some p)).owner = "Skills Team" ∧
       (getDefaults (some p)).email = none) ∧
     (p.description = none →
       (getDefaults (some p)).description =
         "A collection of Claude Code skills")) := by
  refine ⟨⟨?_, ?_, ?_, ?_⟩, ⟨?_, ?_, ?_, ?_⟩, rfl, ?_, ?_, ?_⟩
  · simp [assembleMarketplace, jsOr, hs]
  · simp [assembleMarketplace, jsOr, hs]
  · simp [assembleMarketplace, jsFirstTruthy, truthyO, hs]
  · simp [assembleMarketplace, jsOr, hs]
  · simp [assembleMarketplace, jsOr]
  · simp [assembleMarketplace, jsOr]
  · intro hem
    cases he : defaults.email with
    | none => simp [assembleMarketplace, jsFirstTruthy, truthyO, he]
    | some em =>
      have : em ≠ "" := hem em he
      simp [assembleMarketplace, jsFirstTruthy, truthyO, he, this]
  · simp [assembleMarketplace, jsOr]
  · intro h; rw [getDefaults_name, h]
  · intro h; rw [getDefaults_owner, getDefaults_email, h]; exact ⟨rfl, rfl⟩
  · intro h; rw [getDefaults_description, h]

/-- C3, witness: the three precedence tiers at concrete inputs. -/
theorem override_precedence_amended_instance :
    (assembleMarketplace ⟨some "X", none, none, none, "o", "skills"⟩
        fallbackDefaults []).name = "X" ∧
    (assembleMarketplace ⟨none, none, none, none, "o", "skills"⟩
        fallbackDefaults []).name = "skills-marketplace" ∧
    (assembleMarketplace ⟨none, none, none, none, "o", "skills"⟩
        fallbackDefaults []).owner.email = none := by
  have h := override_precedence_amended
    ⟨none, none, none, none, "o", "skills"⟩ fallbackDefaults [] "X"
    (by decide) ⟨none, none, none⟩
  exact ⟨h.1.1, h.2.1.1, h.2.1.2.2.1 (by simp [fallbackDefaults])⟩

/-- C4, counterexample: the line `":foo"` inside a detected header region
contains a `':'`, yet the parser returns the empty mapping — lines whose
first `':'` is at position 0 are ignored, contrary to the claim that every
line containing a `':'` contributes a pair. -/
theorem colon_line_cex :
    (':' ∈ ":foo".data) ∧
    fmRegion "---\n:foo\n---".data = some ":foo".data ∧
    parseFrontmatter "---\n:foo\n---" = [] := by
  decide

/-- C4, amended: when the delimiter pattern is absent the parser returns the
empty mapping; when it is present, exactly the region's lines whose first
`':'` occurs at a position greater than zero contribute a pair (trimmed key
before the `':'`, trimmed value after it), and all other lines — including
lines starting with `':'` — are ignored. -/
theorem parse_frontmatter_amended (content : String) :
    (fmRegion content.data = none → parseFrontmatter content = []) ∧
    ∀ region, fmRegion content.data = some region →
      parseFrontmatter content =
        ((splitChar '\n' region).map String.mk).filterMap lineKV := by
  constructor
  · intro h
    unfold parseFrontmatter
    rw [h]
  · intro region h
    unfold parseFrontmatter
    rw [h]
    exact parseFmLines_eq_filterMap _

/-- C4, witness: both branches of the amended claim at concrete documents. -/
theorem parse_frontmatter_amended_instance :
    parseFrontmatter "no header" = [] ∧
    parseFrontmatter "---\n:y\na: 1\n---" = [("a", "1")] := by
  refine ⟨(parse_frontmatter_amended "no header").1 (by decide), ?_⟩
  exact ((parse_frontmatter_amended "---\n:y\na: 1\n---").2 ":y\na: 1".data
    (by decide)).trans (by decide)

/-- C5: both fatal conditions — missing root scan directory, and a scan that
produced zero descriptors — make the run terminate with `Except.error`
(a non-zero `process.exit` before `writeMarketplace` is reached), so no file
is written at the output path. -/
theorem fatal_no_output (options : Options) (fs : FS) :
    (fs.rootExists = false →
      run options fs = .error "Skills directory not found") ∧
    (∀ skills, scanSkills options.skillsDir fs = .ok skills →
      skills.length = 0 →
      run options fs = .error "No skills found") := by
  constructor
  · intro h
    simp [run, generateMarketplace, scanSkills, h, Except.map]
  · intro skills hscan hlen
    simp [run, generateMarketplace, hscan, hlen, Except.map]

/-- C5, witness: both fatal conditions at concrete file systems. -/
theorem fatal_no_output_instance :
    run ⟨none, none, none, none, "o", "skills"⟩ ⟨false, [], none⟩ =
      .error "Skills directory not found" ∧
    run ⟨none, none, none, none, "o", "skills"⟩
        ⟨true, [⟨"d", true, none⟩], none⟩ =
      .error "No skills found" :=
  ⟨(fatal_no_output _ _).1 rfl, (fatal_no_output _ _).2 [] rfl rfl⟩

/-- C6: when the root exists and at least one subdirectory has a `SKILL.md`,
the run succeeds and the manifest's `plugins` length equals the number of
directory entries having a `SKILL.md`; moreover every plugin comes from such
an entry, so subdirectories without one contribute nothing and do not abort
the run. -/
theorem plugins_count (options : Options) (fs : FS)
    (h : fs.rootExists = true) (e₀ : DirEntry) (he : e₀ ∈ fs.entries)
    (hd : e₀.isDir = true) (hm : e₀.skillMd.isSome = true) :
    ∃ m, run options fs = .ok (m, options.output) ∧
      m.plugins.length =
        (fs.entries.filter fun e => e.isDir && e.skillMd.isSome).length ∧
      ∀ p ∈ m.plugins, ∃ e ∈ fs.entries, e.isDir = true ∧
        ∃ c, e.skillMd = some c ∧
          p = buildSkill options.skillsDir e.name c := by
  obtain ⟨c, hc⟩ := Option.isSome_iff_exists.mp hm
  have hmem : buildSkill options.skillsDir e₀.name c ∈
      fs.entries.filterMap (fun e =>
        if e.isDir then e.skillMd.map fun cc => buildSkill options.skillsDir e.name cc
        else none) :=
    List.mem_filterMap.mpr ⟨e₀, he, by simp [hd, hc]⟩
  have hne : (fs.entries.filterMap (fun e =>
      if e.isDir then e.skillMd.map fun cc => buildSkill options.skillsDir e.name cc
      else none)).length ≠ 0 := by
    intro h0
    rw [List.length_eq_zero] at h0
    rw [h0] at hmem
    exact absurd hmem (List.not_mem_nil _)
  refine ⟨assembleMarketplace options (getDefaults fs.pkg)
    (fs.entries.filterMap (fun e =>
      if e.isDir then e.skillMd.map fun cc => buildSkill options.skillsDir e.name cc
      else none)), ?_, ?_, ?_⟩
  · simp [run, generateMarketplace, scanSkills, h, hne, Except.map]
  · simpa [assembleMarketplace] using
      length_filterMap_skills options.skillsDir fs.entries
  · intro p hp
    simp only [assembleMarketplace] at hp
    obtain ⟨e, he2, hfe⟩ := List.mem_filterMap.mp hp
    by_cases hdir : e.isDir = true
    · cases hsm : e.skillMd with
      | none => rw [hdir, hsm] at hfe; simp at hfe
      | some c2 =>
        rw [hdir, hsm] at hfe
        simp only [if_true, Option.map_some] at hfe
        exact ⟨e, he2, hdir, c2, hsm, (Option.some_inj.mp hfe).symm⟩
    · rw [if_neg hdir] at hfe
      simp at hfe

/-- C6, witness: a root with one valid package directory, one directory
without `SKILL.md`, and one plain file yields exactly one plugin. -/
theorem plugins_count_instance :
    ∃ m, run ⟨none, none, none, none, "o", "skills"⟩
        ⟨true, [⟨"a", true, some "---\nname: x\n---"⟩, ⟨"b", true, none⟩,
          ⟨"c", false, none⟩], none⟩ = .ok (m, "o") ∧
      m.plugins.length = 1 := by
  obtain ⟨m, h1, h2, -⟩ := plugins_count
    ⟨none, none, none, none, "o", "skills"⟩
    ⟨true, [⟨"a", true, some "---\nname: x\n---"⟩, ⟨"b", true, none⟩,
      ⟨"c", false, none⟩], none⟩ rfl
    ⟨"a", true, some "---\nname: x\n---"⟩ (by simp) rfl rfl
  exact ⟨m, h1, h2.trans (by decide)⟩

/-- C7: inside one metadata block, when a line assigns key `k` and no later
line of the block assigns `k` again, reading `k` from the parsed mapping
returns that line's value — the last occurrence wins. -/
theorem duplicate_keys_last_wins (content : String) (region : List Char)
    (ls₁ ls₂ : List String) (l k v : String)
    (hr : fmRegion content.data = some region)
    (hls : (splitChar '\n' region).map String.mk = ls₁ ++ l :: ls₂)
    (hl : lineKV l = some (k, v))
    (h2 : ∀ l' ∈ ls₂, ∀ v', lineKV l' ≠ some (k, v')) :
    fmGet (parseFrontmatter content) k = some v := by
  unfold parseFrontmatter
  rw [hr]
  show fmGet (parseFmLines ((splitChar '\n' region).map String.mk)) k = some v
  rw [parseFmLines_eq_filterMap, hls, List.filterMap_append,
    List.filterMap_cons, hl]
  apply fmGet_last
  intro p hp hk
  obtain ⟨l', hl', hfl⟩ := List.mem_filterMap.mp hp
  have hpk : p = (k, p.2) := by cases p; simp_all
  exact h2 l' hl' p.2 (by rw [← hpk]; exact hfl)

/-- C7, witness: a block assigning `a` twice reads back the second value. -/
theorem duplicate_keys_last_wins_instance :
    fmGet (parseFrontmatter "---\na: 1\na: 2\n---") "a" = some "2" :=
  duplicate_keys_last_wins "---\na: 1\na: 2\n---" ("a: 1\na: 2".data)
    ["a: 1"] [] "a: 2" "a" "2" (by decide) (by decide) (by decide) (by simp)

/-- C8, counterexample: an empty-string author is not used as the owner
name; an existing but empty `email` sub-field produces no email; and an
object author with an empty `name` sub-field sets neither owner nor email —
contrary to the claim, which keys only on presence. -/
theorem owner_resolution_cex :
    (getDefaults (some ⟨none, some (.str ""), none⟩)).owner =
      "Skills Team" ∧
    (getDefaults (some ⟨none, some (.obj (some "Jane") (some "")),
      none⟩)).owner = "Jane" ∧
    (getDefaults (some ⟨none, some (.obj (some "Jane") (some "")),
      none⟩)).email = none ∧
    (getDefaults (some ⟨none, some (.obj (some "") (some "j@x.com")),
      none⟩)).owner = "Skills Team" ∧
    (getDefaults (some ⟨none, some (.obj (some "") (some "j@x.com")),
      none⟩)).email = none := by
  decide

/-- C8, amended: a non-empty plain-string author becomes the owner name with
no email; an object author with a non-empty `name` sub-field becomes the
owner name, and an email is produced exactly when a non-empty `email`
sub-field exists, in which case it is that sub-field's value. -/
theorem owner_resolution_amended (pn pd : Option String) (s : String)
    (hs : s ≠ "") (nm : String) (hn : nm ≠ "") (e : Option String) :
    ((getDefaults (some ⟨pn, some (.str s), pd⟩)).owner = s ∧
     (getDefaults (some ⟨pn, some (.str s), pd⟩)).email = none) ∧
    ((getDefaults (some ⟨pn, some (.obj (some nm) e), pd⟩)).owner = nm ∧
     ((getDefaults (some ⟨pn, some (.obj (some nm) e), pd⟩)).email ≠ none ↔
        ∃ em, e = some em ∧ em ≠ "") ∧
     (∀ em, e = some em → em ≠ "" →
        (getDefaults (some ⟨pn, some (.obj (some nm) e), pd⟩)).email =
          some em)) := by
  refine ⟨⟨?_, ?_⟩, ?_, ?_, ?_⟩
  · rw [getDefaults_owner]; simp [hs]
  · rw [getDefaults_email]
  · rw [getDefaults_owner]; simp [hn]
  · rw [getDefaults_email]
    cases e with
    | none => simp
    | some em =>
      by_cases hem : em = "" <;> simp [hn, hem]
  · intro em he hem
    subst he
    rw [getDefaults_email]
    simp [hn, hem]

/-- C8, witness: the spec's two owner-resolution examples. -/
theorem owner_resolution_amended_instance :
    (getDefaults (some ⟨none, some (.str "Jane"), none⟩)).owner = "Jane" ∧
    (getDefaults (some ⟨none, some (.str "Jane"), none⟩)).email = none ∧
    (getDefaults (some ⟨none, some (.obj (some "Jane") (some "j@x.com")),
      none⟩)).owner = "Jane" ∧
    (getDefaults (some ⟨none, some (.obj (some "Jane") (some "j@x.com")),
      none⟩)).email = some "j@x.com" := by
  have h := owner_resolution_amended none none "Jane" (by decide) "Jane"
    (by decide) (some "j@x.com")
  exact ⟨h.1.1, h.1.2, h.2.1, h.2.2.2 "j@x.com" rfl (by decide)⟩

/-- C9: a descriptor whose metadata block has a (non-empty) `keywords` value
carries the ordered sequence obtained by splitting that value on commas and
trimming each element. -/
theorem keywords_split (skillsDir entryName content v : String)
    (h : fmGet (parseFrontmatter content) "keywords" = some v)
    (hv : v ≠ "") :
    (buildSkill skillsDir entryName content).keywords =
      some ((jsSplit ',' v).map jsTrim) := by
  simp [buildSkill, h, jsOpt, truthyO, hv]

/-- C9, witness: the spec's example `"a, b ,c"` yields `["a","b","c"]`. -/
theorem keywords_split_instance :
    (buildSkill "skills" "d" "---\nkeywords: a, b ,c\n---").keywords =
      some ["a", "b", "c"] :=
  (keywords_split "skills" "d" "---\nkeywords: a, b ,c\n---" "a, b ,c"
    (by decide) (by decide)).trans (by decide)

/-- C10: a frontmatter key mapped to the empty string behaves as if absent:
the identifier falls back to the subdirectory name, the summary to the
synthesized string, and each optional field is omitted. -/
theorem empty_value_absent (skillsDir entryName content : String) :
    (fmGet (parseFrontmatter content) "name" = some "" →
      (buildSkill skillsDir entryName content).name = entryName) ∧
    (fmGet (parseFrontmatter content) "description" = some "" →
      (buildSkill skillsDir entryName content).description =
        "Skill: " ++ entryName) ∧
    (fmGet (parseFrontmatter content) "version" = some "" →
      (buildSkill skillsDir entryName content).version = none) ∧
    (fmGet (parseFrontmatter content) "author" = some "" →
      (buildSkill skillsDir entryName content).author = none) ∧
    (fmGet (parseFrontmatter content) "keywords" = some "" →
      (buildSkill skillsDir entryName content).keywords = none) ∧
    (fmGet (parseFrontmatter content) "category" = some "" →
      (buildSkill skillsDir entryName content).category = none) := by
  refine ⟨?_, ?_, ?_, ?_, ?_, ?_⟩ <;> intro h <;>
    simp [buildSkill, h, jsOr, jsOpt, truthyO]

/-- C10, witness: a block giving every key an empty value produces the same
descriptor fields as no metadata at all. -/
theorem empty_value_absent_instance :
    (buildSkill "skills" "d"
      "---\nname:\ndescription:\nversion:\nauthor:\nkeywords:\ncategory:\n---").name = "d" ∧
    (buildSkill "skills" "d"
      "---\nname:\ndescription:\nversion:\nauthor:\nkeywords:\ncategory:\n---").description = "Skill: d" ∧
    (buildSkill "skills" "d"
      "---\nname:\ndescription:\nversion:\nauthor:\nkeywords:\ncategory:\n---").version = none ∧
    (buildSkill "skills" "d"
      "---\nname:\ndescription:\nversion:\nauthor:\nkeywords:\ncategory:\n---").author = none ∧
    (buildSkill "skills" "d"
      "---\nname:\ndescription:\nversion:\nauthor:\nkeywords:\ncategory:\n---").keywords = none ∧
    (buildSkill "skills" "d"
      "---\nname:\ndescription:\nversion:\nauthor:\nkeywords:\ncategory:\n---").category = none := by
  have h := empty_value_absent "skills" "d"
    "---\nname:\ndescription:\nversion:\nauthor:\nkeywords:\ncategory:\n---"
  exact ⟨h.1 (by decide), (h.2.1 (by decide)).trans (by decide),
    h.2.2.1 (by decide), h.2.2.2.1 (by decide), h.2.2.2.2.1 (by decide),
    h.2.2.2.2.2 (by decide)⟩

end GenMarketplace
